import Mathlib

/-!
Verification of the vsync-relative callback dispatcher
(`services/surfaceflinger/Scheduler/VSyncDispatch.h` and its specification).

The value types (`ScheduleTiming`, `ScheduleResult`, `CancelResult`) are
embedded from the header.  The dispatcher implementation itself is not part
of the sources, so the registry, timing resolver, commit timeline and the
scoped registration handle are modelled from the specification, as noted on
each definition.
-/

namespace Scheduler

/- Nanosecond timestamps and durations (`nsecs_t`, a signed 64-bit integer)
are embedded as `Int`; overflow is immaterial to the scheduling logic. -/

/-- Embedded from `VSyncDispatch.h`: `VSyncDispatch::ScheduleTiming`. -/
structure ScheduleTiming where
  workDuration : Int
  readyDuration : Int
  lastVsync : Int
  committedVsyncOpt : Option Int
deriving DecidableEq, Repr

/-- Embedded from `VSyncDispatch.h`: `ScheduleTiming::operator==`, which
compares the four fields. -/
def ScheduleTiming.eqOp (a b : ScheduleTiming) : Bool :=
  a.workDuration == b.workDuration && a.readyDuration == b.readyDuration &&
    a.lastVsync == b.lastVsync && a.committedVsyncOpt == b.committedVsyncOpt

/-- Embedded from `VSyncDispatch.h`: `ScheduleTiming::operator!=`, defined as
the negation of `operator==`. -/
def ScheduleTiming.neOp (a b : ScheduleTiming) : Bool :=
  !(ScheduleTiming.eqOp a b)

/-- Embedded from `VSyncDispatch.h`: `ScheduleResult`. -/
structure ScheduleResult where
  callbackTime : Int
  vsyncTime : Int
deriving DecidableEq, Repr

/-- Embedded from `VSyncDispatch.h`: `CancelResult`. -/
inductive CancelResult where
  | Cancelled : CancelResult
  | TooLate : CancelResult
  | Error : CancelResult
deriving DecidableEq, Repr

/-- Modelled from the spec: the external vsync predictor (the implementation
is not in the sources).  The predictor is a list of predicted vsync times and
`nextVsyncAfter` returns the first predicted time that is at least the lower
bound, per the collaborator contract `nextVsyncAfter(lowerBound)`. -/
def nextVsyncAfter (vsyncs : List Int) (lb : Int) : Option Int :=
  vsyncs.find? (fun v => decide (lb ≤ v))

/-- Modelled from the spec: step 1 and step 2 of the Timing Resolver (the
resolver implementation is not in the sources).  A present `committedVsyncOpt`
is used as the target vsync without consulting the predictor; otherwise the
target is the first predictor vsync at or after `lastVsync`. -/
def resolveTarget (timing : ScheduleTiming) (vsyncs : List Int) : Option Int :=
  match timing.committedVsyncOpt with
  | some v => some v
  | none => nextVsyncAfter vsyncs timing.lastVsync

/-- Modelled from the spec: steps 3 to 5 of the Timing Resolver (the resolver
implementation is not in the sources).  `callbackTime` is the target vsync
minus `workDuration + readyDuration`; the request is infeasible when that
time is not strictly after `now` or a callback was already dispatched for the
target vsync (`lastDispatched`). -/
def resolve (now : Int) (timing : ScheduleTiming) (vsyncs : List Int)
    (lastDispatched : Option Int) : Option ScheduleResult :=
  match resolveTarget timing vsyncs with
  | none => none
  | some target =>
    if target - (timing.workDuration + timing.readyDuration) ≤ now ∨
        lastDispatched = some target then none
    else
      some (ScheduleResult.mk (target - (timing.workDuration + timing.readyDuration)) target)

/-- Modelled from the spec: the per-token arm state of the registry,
`Unarmed / Armed(wakeTime, vsyncTime) / InFlight` (the registry
implementation is not in the sources). -/
inductive ArmState where
  | unarmed : ArmState
  | armed (wakeTime vsyncTime : Int) : ArmState
  | inFlight (vsyncTime : Int) : ArmState
deriving DecidableEq, Repr

/-- Modelled from the spec: a registry entry, holding the display
name, its arm state and the vsync for which a callback was last dispatched
(the registry implementation is not in the sources). -/
structure CallbackEntry where
  name : String
  state : ArmState
  lastDispatched : Option Int
deriving DecidableEq, Repr

/-- Modelled from the spec: the dispatcher state, a token counter and the
registered entries keyed by token in creation order (the registry
implementation is not in the sources). -/
structure DispatchState where
  nextToken : Nat
  entries : List (Nat × CallbackEntry)
deriving DecidableEq, Repr

/-- Modelled from the spec: the initial dispatcher state with no
registrations. -/
def dispatchInit : DispatchState := DispatchState.mk 0 []

/-- Modelled from the spec: look up the entry of a token in the registry. -/
def lookupEntry (st : DispatchState) (tok : Nat) : Option CallbackEntry :=
  (st.entries.find? (fun p => p.fst == tok)).map Prod.snd

/-- Modelled from the spec: replace the entry stored for a token, leaving
every other entry unchanged. -/
def setEntry (st : DispatchState) (tok : Nat) (e : CallbackEntry) : DispatchState :=
  DispatchState.mk st.nextToken
    (st.entries.map (fun p => if p.fst == tok then (tok, e) else p))

/-- Modelled from the spec: `registerCallback` allocates a fresh token and
stores an Unarmed entry (the registry implementation is not in the
sources). -/
def registerCallback (st : DispatchState) (name : String) : DispatchState × Nat :=
  (DispatchState.mk (st.nextToken + 1)
      (st.entries ++ [(st.nextToken, CallbackEntry.mk name ArmState.unarmed none)]),
    st.nextToken)

/-- Modelled from the spec: `unregisterCallback` removes the entry of the token
(the registry implementation is not in the sources). -/
def unregisterCallback (st : DispatchState) (tok : Nat) : DispatchState :=
  DispatchState.mk st.nextToken (st.entries.filter (fun p => p.fst != tok))

/-- Modelled from the spec: `schedule` resolves the timing against the
predictor and arms (or re-arms) the entry of the token on success; it returns the
empty result and leaves the state unchanged when the token is unknown or the
request is infeasible (the dispatcher implementation is not in the
sources). -/
def schedule (st : DispatchState) (tok : Nat) (timing : ScheduleTiming)
    (now : Int) (vsyncs : List Int) : DispatchState × Option ScheduleResult :=
  match lookupEntry st tok with
  | none => (st, none)
  | some e =>
    match resolve now timing vsyncs e.lastDispatched with
    | none => (st, none)
    | some r =>
      (setEntry st tok
          (CallbackEntry.mk e.name (ArmState.armed r.callbackTime r.vsyncTime) e.lastDispatched),
        some r)

/-- Modelled from the spec: `update` adjusts an existing Armed entry and is a
no-op returning the empty result when the token is unknown or not armed (the
dispatcher implementation is not in the sources). -/
def update (st : DispatchState) (tok : Nat) (timing : ScheduleTiming)
    (now : Int) (vsyncs : List Int) : DispatchState × Option ScheduleResult :=
  match lookupEntry st tok with
  | none => (st, none)
  | some e =>
    match e.state with
    | ArmState.armed _ _ =>
      match resolve now timing vsyncs e.lastDispatched with
      | none => (st, none)
      | some r =>
        (setEntry st tok
            (CallbackEntry.mk e.name (ArmState.armed r.callbackTime r.vsyncTime)
              e.lastDispatched),
          some r)
    | _ => (st, none)

/-- Modelled from the spec: `cancel` disarms an Armed entry and returns
Cancelled; a registered entry that is InFlight or no longer armed yields
TooLate; an unknown token yields Error (the dispatcher implementation is not
in the sources). -/
def cancel (st : DispatchState) (tok : Nat) : DispatchState × CancelResult :=
  match lookupEntry st tok with
  | none => (st, CancelResult.Error)
  | some e =>
    match e.state with
    | ArmState.armed _ _ =>
      (setEntry st tok (CallbackEntry.mk e.name ArmState.unarmed e.lastDispatched),
        CancelResult.Cancelled)
    | _ => (st, CancelResult.TooLate)

/-- Modelled from the spec: the dispatch procedure claims a due Armed entry,
marking it InFlight and producing the invocation `(vsyncTime, wakeTime)`; on
any other entry it does nothing (the dispatch loop implementation is not in
the sources). -/
def fireBegin (st : DispatchState) (tok : Nat) (now : Int) :
    DispatchState × Option (Int × Int) :=
  match lookupEntry st tok with
  | none => (st, none)
  | some e =>
    match e.state with
    | ArmState.armed wt vt =>
      if wt ≤ now then
        (setEntry st tok (CallbackEntry.mk e.name (ArmState.inFlight vt) e.lastDispatched),
          some (vt, wt))
      else (st, none)
    | _ => (st, none)

/-- Modelled from the spec: after the invocation of the callback returns, an
InFlight entry transitions back to Unarmed and records the dispatched vsync,
unless the callback re-armed itself during the invocation (the dispatch loop
implementation is not in the sources). -/
def fireEnd (st : DispatchState) (tok : Nat) : DispatchState :=
  match lookupEntry st tok with
  | none => st
  | some e =>
    match e.state with
    | ArmState.inFlight vt =>
      setEntry st tok (CallbackEntry.mk e.name ArmState.unarmed (some vt))
    | _ => st

/-- Tokens currently registered, in creation order. -/
def TokensOf (st : DispatchState) : List Nat := st.entries.map Prod.fst

theorem find_replace_self (l : List (Nat × CallbackEntry)) (tok : Nat) (e : CallbackEntry)
    (h : (l.find? (fun p => p.fst == tok)).isSome = true) :
    ((l.map (fun p => if p.fst == tok then (tok, e) else p)).find?
      (fun p => p.fst == tok)) = some (tok, e) := by
  induction l with
  | nil => simp [List.find?] at h
  | cons a l ih =>
    by_cases ha : a.fst = tok
    · simp [List.find?, ha]
    · have ha2 : (a.fst == tok) = false := by simp [ha]
      simp only [List.map_cons, ha2, Bool.false_eq_true, if_false, List.find?_cons, ha2]
      simp only [List.find?_cons, ha2] at h
      exact ih h

theorem find_replace_other (l : List (Nat × CallbackEntry)) (tok t2 : Nat) (e : CallbackEntry)
    (hne : t2 ≠ tok) :
    ((l.map (fun p => if p.fst == tok then (tok, e) else p)).find?
      (fun p => p.fst == t2)) = l.find? (fun p => p.fst == t2) := by
  induction l with
  | nil => rfl
  | cons a l ih =>
    by_cases ha : a.fst = tok
    · have ha1 : (a.fst == tok) = true := by simp [ha]
      have ha2 : (a.fst == t2) = false := by simp [ha]; omega
      have ha3 : (tok == t2) = false := by simp; omega
      simp only [List.map_cons, ha1, if_true, List.find?_cons, ha3, ha2]
      exact ih
    · have ha1 : (a.fst == tok) = false := by simp [ha]
      by_cases hb : a.fst = t2
      · have hb1 : (a.fst == t2) = true := by simp [hb]
        simp only [List.map_cons, ha1, Bool.false_eq_true, if_false, List.find?_cons, hb1]
      · have hb1 : (a.fst == t2) = false := by simp [hb]
        simp only [List.map_cons, ha1, Bool.false_eq_true, if_false, List.find?_cons, hb1]
        exact ih

theorem find_filter_self (l : List (Nat × CallbackEntry)) (tok : Nat) :
    ((l.filter (fun p => p.fst != tok)).find? (fun p => p.fst == tok)) = none := by
  rw [List.find?_eq_none]
  intro x hx
  have := (List.mem_filter.mp hx).2
  simpa using this

theorem find_filter_other (l : List (Nat × CallbackEntry)) (tok t2 : Nat) (hne : t2 ≠ tok) :
    ((l.filter (fun p => p.fst != tok)).find? (fun p => p.fst == t2))
      = l.find? (fun p => p.fst == t2) := by
  induction l with
  | nil => rfl
  | cons a l ih =>
    by_cases ha : a.fst = tok
    · have ha1 : (a.fst != tok) = false := by simp [ha]
      have ha2 : (a.fst == t2) = false := by simp [ha]; omega
      simp only [List.filter_cons, ha1, Bool.false_eq_true, if_false, List.find?_cons, ha2]
      exact ih
    · have ha1 : (a.fst != tok) = true := by simp [ha]
      by_cases hb : a.fst = t2
      · have hb1 : (a.fst == t2) = true := by simp [hb]
        simp only [List.filter_cons, ha1, if_true, List.find?_cons, hb1]
      · have hb1 : (a.fst == t2) = false := by simp [hb]
        simp only [List.filter_cons, ha1, if_true, List.find?_cons, hb1]
        exact ih

theorem keys_replace (l : List (Nat × CallbackEntry)) (tok : Nat) (e : CallbackEntry) :
    (l.map (fun p => if p.fst == tok then (tok, e) else p)).map Prod.fst = l.map Prod.fst := by
  induction l with
  | nil => rfl
  | cons a l ih =>
    by_cases ha : a.fst = tok
    · simp only [List.map_cons, ih, ha]
      simp [ha]
    · have ha1 : (a.fst == tok) = false := by simp [ha]
      simp only [List.map_cons, ha1, Bool.false_eq_true, if_false, ih]

theorem lookup_setEntry_self (st : DispatchState) (tok : Nat) (e e0 : CallbackEntry)
    (h : lookupEntry st tok = some e0) :
    lookupEntry (setEntry st tok e) tok = some e := by
  unfold lookupEntry at h ⊢
  unfold setEntry
  have hs : (st.entries.find? (fun p => p.fst == tok)).isSome = true := by
    cases hf : st.entries.find? (fun p => p.fst == tok) <;> simp [hf] at h ⊢
  rw [find_replace_self st.entries tok e hs]
  rfl

theorem lookup_setEntry_other (st : DispatchState) (tok t2 : Nat) (e : CallbackEntry)
    (hne : t2 ≠ tok) :
    lookupEntry (setEntry st tok e) t2 = lookupEntry st t2 := by
  unfold lookupEntry setEntry
  rw [find_replace_other st.entries tok t2 e hne]

theorem lookup_unregister_self (st : DispatchState) (tok : Nat) :
    lookupEntry (unregisterCallback st tok) tok = none := by
  unfold lookupEntry unregisterCallback
  rw [find_filter_self]
  rfl

theorem lookup_unregister_other (st : DispatchState) (tok t2 : Nat) (hne : t2 ≠ tok) :
    lookupEntry (unregisterCallback st tok) t2 = lookupEntry st t2 := by
  unfold lookupEntry unregisterCallback
  rw [find_filter_other st.entries tok t2 hne]

theorem lookup_register (st : DispatchState) (name : String) (tok : Nat) :
    lookupEntry (registerCallback st name).fst tok =
      (match lookupEntry st tok with
        | some e => some e
        | none =>
          if st.nextToken = tok then some (CallbackEntry.mk name ArmState.unarmed none)
          else none) := by
  unfold lookupEntry registerCallback
  rw [List.find?_append]
  cases hf : st.entries.find? (fun p => p.fst == tok) with
  | some q => simp
  | none =>
    by_cases ht : st.nextToken = tok
    · simp [List.find?, ht]
    · have ht1 : (st.nextToken == tok) = false := by simp [ht]
      simp [List.find?, ht1, ht]

theorem nextVsyncAfter_spec (vsyncs : List Int) (lb v : Int)
    (hsorted : List.Pairwise (fun a b => a ≤ b) vsyncs)
    (h : nextVsyncAfter vsyncs lb = some v) :
    v ∈ vsyncs ∧ lb ≤ v ∧ ∀ w ∈ vsyncs, lb ≤ w → v ≤ w := by
  induction vsyncs with
  | nil => simp [nextVsyncAfter, List.find?] at h
  | cons a l ih =>
    rw [List.pairwise_cons] at hsorted
    by_cases ha : lb ≤ a
    · have ha1 : decide (lb ≤ a) = true := by simpa using ha
      have hv : v = a := by
        unfold nextVsyncAfter at h
        simp only [List.find?_cons, ha1] at h
        exact (Option.some_inj.mp h).symm
      subst hv
      refine ⟨List.mem_cons_self _ _, ha, ?_⟩
      intro w hw _
      rcases List.mem_cons.mp hw with rfl | hw2
      · exact le_refl _
      · exact hsorted.1 w hw2
    · have ha1 : decide (lb ≤ a) = false := by simpa using ha
      have h2 : nextVsyncAfter l lb = some v := by
        unfold nextVsyncAfter at h ⊢
        simpa only [List.find?_cons, ha1] using h
      obtain ⟨hm, hlbv, hmin⟩ := ih hsorted.2 h2
      refine ⟨List.mem_cons_of_mem _ hm, hlbv, ?_⟩
      intro w hw hlw
      rcases List.mem_cons.mp hw with rfl | hw2
      · exact absurd hlw ha
      · exact hmin w hw2 hlw

theorem resolveTarget_committed (timing : ScheduleTiming) (vsyncs : List Int) (v : Int)
    (h : timing.committedVsyncOpt = some v) : resolveTarget timing vsyncs = some v := by
  unfold resolveTarget
  rw [h]

theorem resolveTarget_uncommitted (timing : ScheduleTiming) (vsyncs : List Int)
    (h : timing.committedVsyncOpt = none) :
    resolveTarget timing vsyncs = nextVsyncAfter vsyncs timing.lastVsync := by
  unfold resolveTarget
  rw [h]

theorem resolve_none_iff (now : Int) (timing : ScheduleTiming) (vsyncs : List Int)
    (ld : Option Int) (target : Int) (ht : resolveTarget timing vsyncs = some target) :
    (resolve now timing vsyncs ld = none ↔
      (target - (timing.workDuration + timing.readyDuration) ≤ now ∨ ld = some target)) := by
  unfold resolve
  rw [ht]
  dsimp only
  by_cases hc : target - (timing.workDuration + timing.readyDuration) ≤ now ∨ ld = some target
  · rw [if_pos hc]
    exact iff_of_true rfl hc
  · rw [if_neg hc]
    exact iff_of_false (by simp) hc

theorem resolve_some_val (now : Int) (timing : ScheduleTiming) (vsyncs : List Int)
    (ld : Option Int) (r : ScheduleResult) (h : resolve now timing vsyncs ld = some r) :
    resolveTarget timing vsyncs = some r.vsyncTime ∧
    r.callbackTime = r.vsyncTime - (timing.workDuration + timing.readyDuration) ∧
    now < r.callbackTime ∧ ld ≠ some r.vsyncTime := by
  unfold resolve at h
  cases ht : resolveTarget timing vsyncs with
  | none => rw [ht] at h; simp at h
  | some target =>
    rw [ht] at h
    dsimp only at h
    by_cases hc : target - (timing.workDuration + timing.readyDuration) ≤ now ∨ ld = some target
    · rw [if_pos hc] at h; simp at h
    · rw [if_neg hc] at h
      push_neg at hc
      obtain ⟨hc1, hc2⟩ := hc
      have hr : r = ScheduleResult.mk
          (target - (timing.workDuration + timing.readyDuration)) target :=
        (Option.some_inj.mp h).symm
      subst hr
      exact ⟨rfl, rfl, hc1, hc2⟩

theorem schedule_eq_of_lookup_none (st : DispatchState) (tok : Nat) (timing : ScheduleTiming)
    (now : Int) (vsyncs : List Int) (h : lookupEntry st tok = none) :
    schedule st tok timing now vsyncs = (st, none) := by
  unfold schedule
  rw [h]

theorem schedule_eq_of_lookup_some (st : DispatchState) (tok : Nat) (timing : ScheduleTiming)
    (now : Int) (vsyncs : List Int) (e : CallbackEntry) (h : lookupEntry st tok = some e) :
    schedule st tok timing now vsyncs =
      (match resolve now timing vsyncs e.lastDispatched with
        | none => (st, none)
        | some r =>
          (setEntry st tok
              (CallbackEntry.mk e.name (ArmState.armed r.callbackTime r.vsyncTime)
                e.lastDispatched),
            some r)) := by
  unfold schedule
  rw [h]

theorem update_eq_of_lookup_none (st : DispatchState) (tok : Nat) (timing : ScheduleTiming)
    (now : Int) (vsyncs : List Int) (h : lookupEntry st tok = none) :
    update st tok timing now vsyncs = (st, none) := by
  unfold update
  rw [h]

theorem update_eq_of_armed (st : DispatchState) (tok : Nat) (timing : ScheduleTiming)
    (now : Int) (vsyncs : List Int) (e : CallbackEntry) (wt vt : Int)
    (h : lookupEntry st tok = some e) (hs : e.state = ArmState.armed wt vt) :
    update st tok timing now vsyncs =
      (match resolve now timing vsyncs e.lastDispatched with
        | none => (st, none)
        | some r =>
          (setEntry st tok
              (CallbackEntry.mk e.name (ArmState.armed r.callbackTime r.vsyncTime)
                e.lastDispatched),
            some r)) := by
  unfold update
  rw [h]
  dsimp only
  rw [hs]

theorem update_eq_of_not_armed (st : DispatchState) (tok : Nat) (timing : ScheduleTiming)
    (now : Int) (vsyncs : List Int) (e : CallbackEntry)
    (h : lookupEntry st tok = some e) (hs : ∀ wt vt, e.state ≠ ArmState.armed wt vt) :
    update st tok timing now vsyncs = (st, none) := by
  unfold update
  rw [h]
  dsimp only
  cases he : e.state with
  | unarmed => rfl
  | armed wt vt => exact absurd he (hs wt vt)
  | inFlight vt => rfl

theorem cancel_eq_of_lookup_none (st : DispatchState) (tok : Nat)
    (h : lookupEntry st tok = none) : cancel st tok = (st, CancelResult.Error) := by
  unfold cancel
  rw [h]

theorem cancel_eq_of_armed (st : DispatchState) (tok : Nat) (e : CallbackEntry) (wt vt : Int)
    (h : lookupEntry st tok = some e) (hs : e.state = ArmState.armed wt vt) :
    cancel st tok =
      (setEntry st tok (CallbackEntry.mk e.name ArmState.unarmed e.lastDispatched),
        CancelResult.Cancelled) := by
  unfold cancel
  rw [h]
  dsimp only
  rw [hs]

theorem cancel_eq_of_not_armed (st : DispatchState) (tok : Nat) (e : CallbackEntry)
    (h : lookupEntry st tok = some e) (hs : ∀ wt vt, e.state ≠ ArmState.armed wt vt) :
    cancel st tok = (st, CancelResult.TooLate) := by
  unfold cancel
  rw [h]
  dsimp only
  cases he : e.state with
  | unarmed => rfl
  | armed wt vt => exact absurd he (hs wt vt)
  | inFlight vt => rfl

theorem fireBegin_eq_of_lookup_none (st : DispatchState) (tok : Nat) (now : Int)
    (h : lookupEntry st tok = none) : fireBegin st tok now = (st, none) := by
  unfold fireBegin
  rw [h]

theorem fireBegin_eq_of_armed (st : DispatchState) (tok : Nat) (now : Int)
    (e : CallbackEntry) (wt vt : Int)
    (h : lookupEntry st tok = some e) (hs : e.state = ArmState.armed wt vt) :
    fireBegin st tok now =
      (if wt ≤ now then
        (setEntry st tok (CallbackEntry.mk e.name (ArmState.inFlight vt) e.lastDispatched),
          some (vt, wt))
      else (st, none)) := by
  unfold fireBegin
  rw [h]
  dsimp only
  rw [hs]

theorem fireBegin_eq_of_not_armed (st : DispatchState) (tok : Nat) (now : Int)
    (e : CallbackEntry) (h : lookupEntry st tok = some e)
    (hs : ∀ wt vt, e.state ≠ ArmState.armed wt vt) : fireBegin st tok now = (st, none) := by
  unfold fireBegin
  rw [h]
  dsimp only
  cases he : e.state with
  | unarmed => rfl
  | armed wt vt => exact absurd he (hs wt vt)
  | inFlight vt => rfl

theorem fireEnd_eq_of_lookup_none (st : DispatchState) (tok : Nat)
    (h : lookupEntry st tok = none) : fireEnd st tok = st := by
  unfold fireEnd
  rw [h]

theorem fireEnd_eq_of_inFlight (st : DispatchState) (tok : Nat) (e : CallbackEntry) (vt : Int)
    (h : lookupEntry st tok = some e) (hs : e.state = ArmState.inFlight vt) :
    fireEnd st tok = setEntry st tok (CallbackEntry.mk e.name ArmState.unarmed (some vt)) := by
  unfold fireEnd
  rw [h]
  dsimp only
  rw [hs]

theorem fireEnd_eq_of_not_inFlight (st : DispatchState) (tok : Nat) (e : CallbackEntry)
    (h : lookupEntry st tok = some e) (hs : ∀ vt, e.state ≠ ArmState.inFlight vt) :
    fireEnd st tok = st := by
  unfold fireEnd
  rw [h]
  dsimp only
  cases he : e.state with
  | unarmed => rfl
  | armed wt vt => rfl
  | inFlight vt => exact absurd he (hs vt)

/-- Whether an arm state is Armed. -/
def ArmState.isArmed : ArmState → Bool
  | ArmState.armed _ _ => true
  | _ => false

theorem ArmState.isArmed_iff (s : ArmState) :
    s.isArmed = true ↔ ∃ wt vt, s = ArmState.armed wt vt := by
  cases s <;> simp [ArmState.isArmed]

/-- Whether the token currently has an Armed entry. -/
def armedAt (st : DispatchState) (tok : Nat) : Bool :=
  match lookupEntry st tok with
  | some e => e.state.isArmed
  | none => false

theorem armedAt_true_iff (st : DispatchState) (tok : Nat) :
    armedAt st tok = true ↔
      ∃ e wt vt, lookupEntry st tok = some e ∧ e.state = ArmState.armed wt vt := by
  unfold armedAt
  cases hl : lookupEntry st tok with
  | none => simp
  | some e =>
    dsimp only
    rw [ArmState.isArmed_iff]
    constructor
    · rintro ⟨wt, vt, hs⟩
      exact ⟨e, wt, vt, rfl, hs⟩
    · rintro ⟨e2, wt, vt, he2, hs⟩
      exact ⟨wt, vt, (Option.some_inj.mp he2) ▸ hs⟩

theorem armedAt_false_iff (st : DispatchState) (tok : Nat) :
    armedAt st tok = false ↔
      (lookupEntry st tok = none ∨
        ∃ e, lookupEntry st tok = some e ∧ e.state.isArmed = false) := by
  unfold armedAt
  cases hl : lookupEntry st tok with
  | none => simp
  | some e =>
    dsimp only
    constructor
    · intro hs
      exact Or.inr ⟨e, rfl, hs⟩
    · rintro (hn | ⟨e2, he2, hs⟩)
      · exact absurd hn (by simp)
      · exact (Option.some_inj.mp he2) ▸ hs

/-- Modelled from the spec: the client-visible and dispatch-loop events that
mutate the dispatcher state (the dispatcher implementation is not in the
sources).  `fireBeginEv` is the dispatch loop claiming a due entry and
invoking its callback; `fireEndEv` is the invocation returning. -/
inductive Event where
  | reg (name : String) : Event
  | unreg (tok : Nat) : Event
  | sched (tok : Nat) (timing : ScheduleTiming) (now : Int) (vsyncs : List Int) : Event
  | upd (tok : Nat) (timing : ScheduleTiming) (now : Int) (vsyncs : List Int) : Event
  | cancelEv (tok : Nat) : Event
  | fireBeginEv (tok : Nat) (now : Int) : Event
  | fireEndEv (tok : Nat) : Event
deriving DecidableEq, Repr

/-- Modelled from the spec: the state transition performed by one event. -/
def step (st : DispatchState) (ev : Event) : DispatchState :=
  match ev with
  | Event.reg name => (registerCallback st name).fst
  | Event.unreg tok => unregisterCallback st tok
  | Event.sched tok timing now vsyncs => (schedule st tok timing now vsyncs).fst
  | Event.upd tok timing now vsyncs => (update st tok timing now vsyncs).fst
  | Event.cancelEv tok => (cancel st tok).fst
  | Event.fireBeginEv tok now => (fireBegin st tok now).fst
  | Event.fireEndEv tok => fireEnd st tok

/-- Modelled from the spec: run a sequence of events. -/
def run (st : DispatchState) (evs : List Event) : DispatchState :=
  evs.foldl step st

/-- Whether the event invokes the callback of the token (the dispatch loop claims
the entry and produces an invocation). -/
def invokes (st : DispatchState) (ev : Event) (tok : Nat) : Bool :=
  match ev with
  | Event.fireBeginEv t now => t == tok && (fireBegin st t now).snd.isSome
  | _ => false

/-- Whether the event is a schedule or update call for the token (a
re-arming). -/
def rearms (ev : Event) (tok : Nat) : Bool :=
  match ev with
  | Event.sched t _ _ _ => t == tok
  | Event.upd t _ _ _ => t == tok
  | _ => false

/-- Whether the event explicitly removes the arming of the token: a cancel, an
unregister, or the dispatch loop claiming the entry and invoking it. -/
def removesArming (st : DispatchState) (ev : Event) (tok : Nat) : Bool :=
  match ev with
  | Event.cancelEv t => t == tok
  | Event.unreg t => t == tok
  | _ => invokes st ev tok

/-- No event of the trace invokes the callback of the token. -/
def noInvoke (st : DispatchState) (evs : List Event) (tok : Nat) : Bool :=
  match evs with
  | [] => true
  | ev :: rest => !invokes st ev tok && noInvoke (step st ev) rest tok

/-- Some event of the trace explicitly removes the arming of the token (cancel,
unregister, or an actual invocation by the dispatch loop). -/
def traceRemoves (st : DispatchState) (evs : List Event) (tok : Nat) : Bool :=
  match evs with
  | [] => false
  | ev :: rest => removesArming st ev tok || traceRemoves (step st ev) rest tok

theorem schedule_lookup_other (st : DispatchState) (t : Nat) (timing : ScheduleTiming)
    (now : Int) (vsyncs : List Int) (t2 : Nat) (hne : t2 ≠ t) :
    lookupEntry (schedule st t timing now vsyncs).fst t2 = lookupEntry st t2 := by
  cases hl : lookupEntry st t with
  | none => rw [schedule_eq_of_lookup_none st t timing now vsyncs hl]
  | some e =>
    rw [schedule_eq_of_lookup_some st t timing now vsyncs e hl]
    cases hr : resolve now timing vsyncs e.lastDispatched with
    | none => rfl
    | some r =>
      dsimp only
      exact lookup_setEntry_other st t t2 _ hne

theorem update_lookup_other (st : DispatchState) (t : Nat) (timing : ScheduleTiming)
    (now : Int) (vsyncs : List Int) (t2 : Nat) (hne : t2 ≠ t) :
    lookupEntry (update st t timing now vsyncs).fst t2 = lookupEntry st t2 := by
  cases hl : lookupEntry st t with
  | none => rw [update_eq_of_lookup_none st t timing now vsyncs hl]
  | some e =>
    cases he : e.state with
    | armed wt vt =>
      rw [update_eq_of_armed st t timing now vsyncs e wt vt hl he]
      cases hr : resolve now timing vsyncs e.lastDispatched with
      | none => rfl
      | some r =>
        dsimp only
        exact lookup_setEntry_other st t t2 _ hne
    | unarmed =>
      rw [update_eq_of_not_armed st t timing now vsyncs e hl (by simp [he])]
    | inFlight vt =>
      rw [update_eq_of_not_armed st t timing now vsyncs e hl (by simp [he])]

theorem cancel_lookup_other (st : DispatchState) (t t2 : Nat) (hne : t2 ≠ t) :
    lookupEntry (cancel st t).fst t2 = lookupEntry st t2 := by
  cases hl : lookupEntry st t with
  | none => rw [cancel_eq_of_lookup_none st t hl]
  | some e =>
    cases he : e.state with
    | armed wt vt =>
      rw [cancel_eq_of_armed st t e wt vt hl he]
      exact lookup_setEntry_other st t t2 _ hne
    | unarmed =>
      rw [cancel_eq_of_not_armed st t e hl (by simp [he])]
    | inFlight vt =>
      rw [cancel_eq_of_not_armed st t e hl (by simp [he])]

theorem fireBegin_lookup_other (st : DispatchState) (t : Nat) (now : Int) (t2 : Nat)
    (hne : t2 ≠ t) :
    lookupEntry (fireBegin st t now).fst t2 = lookupEntry st t2 := by
  cases hl : lookupEntry st t with
  | none => rw [fireBegin_eq_of_lookup_none st t now hl]
  | some e =>
    cases he : e.state with
    | armed wt vt =>
      rw [fireBegin_eq_of_armed st t now e wt vt hl he]
      by_cases hw : wt ≤ now
      · rw [if_pos hw]
        exact lookup_setEntry_other st t t2 _ hne
      · rw [if_neg hw]
    | unarmed =>
      rw [fireBegin_eq_of_not_armed st t now e hl (by simp [he])]
    | inFlight vt =>
      rw [fireBegin_eq_of_not_armed st t now e hl (by simp [he])]

theorem fireEnd_lookup_other (st : DispatchState) (t t2 : Nat) (hne : t2 ≠ t) :
    lookupEntry (fireEnd st t) t2 = lookupEntry st t2 := by
  cases hl : lookupEntry st t with
  | none => rw [fireEnd_eq_of_lookup_none st t hl]
  | some e =>
    cases he : e.state with
    | inFlight vt =>
      rw [fireEnd_eq_of_inFlight st t e vt hl he]
      exact lookup_setEntry_other st t t2 _ hne
    | unarmed =>
      rw [fireEnd_eq_of_not_inFlight st t e hl (by simp [he])]
    | armed wt vt =>
      rw [fireEnd_eq_of_not_inFlight st t e hl (by simp [he])]

theorem armedAt_lookup_none (st : DispatchState) (tok : Nat)
    (hl : lookupEntry st tok = none) : armedAt st tok = false := by
  unfold armedAt
  rw [hl]

theorem armedAt_lookup_some (st : DispatchState) (tok : Nat) (e : CallbackEntry)
    (hl : lookupEntry st tok = some e) : armedAt st tok = e.state.isArmed := by
  unfold armedAt
  rw [hl]

theorem armed_step (st : DispatchState) (ev : Event) (tok : Nat)
    (h : armedAt st tok = true) (hnr : removesArming st ev tok = false) :
    armedAt (step st ev) tok = true := by
  obtain ⟨e, wt, vt, hl, he⟩ := (armedAt_true_iff st tok).mp h
  have hea : e.state.isArmed = true := by rw [he]; rfl
  cases ev with
  | reg name =>
    dsimp only [step]
    have hreg := lookup_register st name tok
    rw [hl] at hreg
    rw [armedAt_lookup_some _ _ e hreg]
    exact hea
  | unreg t =>
    have ht : tok ≠ t := by
      intro hx
      subst hx
      simp [removesArming] at hnr
    dsimp only [step]
    rw [armedAt_lookup_some _ _ e (by rw [lookup_unregister_other st t tok ht]; exact hl)]
    exact hea
  | sched t timing now vsyncs =>
    dsimp only [step]
    by_cases ht : tok = t
    · subst ht
      rw [schedule_eq_of_lookup_some st tok timing now vsyncs e hl]
      cases hr : resolve now timing vsyncs e.lastDispatched with
      | none => exact h
      | some r =>
        dsimp only
        rw [armedAt_lookup_some _ _ _ (lookup_setEntry_self st tok
          (CallbackEntry.mk e.name (ArmState.armed r.callbackTime r.vsyncTime)
            e.lastDispatched) e hl)]
        rfl
    · rw [armedAt_lookup_some _ _ e
        (by rw [schedule_lookup_other st t timing now vsyncs tok ht]; exact hl)]
      exact hea
  | upd t timing now vsyncs =>
    dsimp only [step]
    by_cases ht : tok = t
    · subst ht
      rw [update_eq_of_armed st tok timing now vsyncs e wt vt hl he]
      cases hr : resolve now timing vsyncs e.lastDispatched with
      | none => exact h
      | some r =>
        dsimp only
        rw [armedAt_lookup_some _ _ _ (lookup_setEntry_self st tok
          (CallbackEntry.mk e.name (ArmState.armed r.callbackTime r.vsyncTime)
            e.lastDispatched) e hl)]
        rfl
    · rw [armedAt_lookup_some _ _ e
        (by rw [update_lookup_other st t timing now vsyncs tok ht]; exact hl)]
      exact hea
  | cancelEv t =>
    have ht : tok ≠ t := by
      intro hx
      subst hx
      simp [removesArming] at hnr
    dsimp only [step]
    rw [armedAt_lookup_some _ _ e (by rw [cancel_lookup_other st t tok ht]; exact hl)]
    exact hea
  | fireBeginEv t now =>
    dsimp only [step]
    by_cases ht : tok = t
    · subst ht
      have hnr2 : (fireBegin st tok now).snd.isSome = false := by
        simpa [removesArming, invokes] using hnr
      rw [fireBegin_eq_of_armed st tok now e wt vt hl he] at hnr2 ⊢
      by_cases hw : wt ≤ now
      · rw [if_pos hw] at hnr2
        simp at hnr2
      · rw [if_neg hw]
        exact h
    · rw [armedAt_lookup_some _ _ e
        (by rw [fireBegin_lookup_other st t now tok ht]; exact hl)]
      exact hea
  | fireEndEv t =>
    dsimp only [step]
    by_cases ht : tok = t
    · subst ht
      rw [fireEnd_eq_of_not_inFlight st tok e hl (by simp [he])]
      exact h
    · rw [armedAt_lookup_some _ _ e (by rw [fireEnd_lookup_other st t tok ht]; exact hl)]
      exact hea

theorem notArmed_step (st : DispatchState) (ev : Event) (tok : Nat)
    (h : armedAt st tok = false) (hnr : rearms ev tok = false) :
    armedAt (step st ev) tok = false := by
  cases ev with
  | reg name =>
    dsimp only [step]
    have hreg := lookup_register st name tok
    cases hl : lookupEntry st tok with
    | some e =>
      rw [hl] at hreg
      rw [armedAt_lookup_some _ _ e hreg]
      rw [armedAt_lookup_some st tok e hl] at h
      exact h
    | none =>
      rw [hl] at hreg
      dsimp only at hreg
      by_cases ht : st.nextToken = tok
      · rw [if_pos ht] at hreg
        rw [armedAt_lookup_some _ _ _ hreg]
        rfl
      · rw [if_neg ht] at hreg
        exact armedAt_lookup_none _ _ hreg
  | unreg t =>
    dsimp only [step]
    by_cases ht : tok = t
    · subst ht
      exact armedAt_lookup_none _ _ (lookup_unregister_self st tok)
    · cases hl : lookupEntry st tok with
      | some e =>
        rw [armedAt_lookup_some _ _ e (by rw [lookup_unregister_other st t tok ht]; exact hl)]
        rw [armedAt_lookup_some st tok e hl] at h
        exact h
      | none =>
        exact armedAt_lookup_none _ _ (by rw [lookup_unregister_other st t tok ht]; exact hl)
  | sched t timing now vsyncs =>
    have ht : tok ≠ t := by
      intro hx
      subst hx
      simp [rearms] at hnr
    dsimp only [step]
    cases hl : lookupEntry st tok with
    | some e =>
      rw [armedAt_lookup_some _ _ e
        (by rw [schedule_lookup_other st t timing now vsyncs tok ht]; exact hl)]
      rw [armedAt_lookup_some st tok e hl] at h
      exact h
    | none =>
      exact armedAt_lookup_none _ _
        (by rw [schedule_lookup_other st t timing now vsyncs tok ht]; exact hl)
  | upd t timing now vsyncs =>
    have ht : tok ≠ t := by
      intro hx
      subst hx
      simp [rearms] at hnr
    dsimp only [step]
    cases hl : lookupEntry st tok with
    | some e =>
      rw [armedAt_lookup_some _ _ e
        (by rw [update_lookup_other st t timing now vsyncs tok ht]; exact hl)]
      rw [armedAt_lookup_some st tok e hl] at h
      exact h
    | none =>
      exact armedAt_lookup_none _ _
        (by rw [update_lookup_other st t timing now vsyncs tok ht]; exact hl)
  | cancelEv t =>
    dsimp only [step]
    by_cases ht : tok = t
    · subst ht
      cases hl : lookupEntry st tok with
      | none =>
        rw [cancel_eq_of_lookup_none st tok hl]
        exact h
      | some e =>
        have hs : e.state.isArmed = false := by
          rw [armedAt_lookup_some st tok e hl] at h
          exact h
        have hs2 : ∀ wt vt, e.state ≠ ArmState.armed wt vt := by
          intro wt vt hx
          rw [hx] at hs
          exact absurd hs (by simp [ArmState.isArmed])
        rw [cancel_eq_of_not_armed st tok e hl hs2]
        exact h
    · cases hl : lookupEntry st tok with
      | some e =>
        rw [armedAt_lookup_some _ _ e (by rw [cancel_lookup_other st t tok ht]; exact hl)]
        rw [armedAt_lookup_some st tok e hl] at h
        exact h
      | none =>
        exact armedAt_lookup_none _ _ (by rw [cancel_lookup_other st t tok ht]; exact hl)
  | fireBeginEv t now =>
    dsimp only [step]
    by_cases ht : tok = t
    · subst ht
      cases hl : lookupEntry st tok with
      | none =>
        rw [fireBegin_eq_of_lookup_none st tok now hl]
        exact h
      | some e =>
        have hs : e.state.isArmed = false := by
          rw [armedAt_lookup_some st tok e hl] at h
          exact h
        have hs2 : ∀ wt vt, e.state ≠ ArmState.armed wt vt := by
          intro wt vt hx
          rw [hx] at hs
          exact absurd hs (by simp [ArmState.isArmed])
        rw [fireBegin_eq_of_not_armed st tok now e hl hs2]
        exact h
    · cases hl : lookupEntry st tok with
      | some e =>
        rw [armedAt_lookup_some _ _ e (by rw [fireBegin_lookup_other st t now tok ht]; exact hl)]
        rw [armedAt_lookup_some st tok e hl] at h
        exact h
      | none =>
        exact armedAt_lookup_none _ _ (by rw [fireBegin_lookup_other st t now tok ht]; exact hl)
  | fireEndEv t =>
    dsimp only [step]
    by_cases ht : tok = t
    · subst ht
      cases hl : lookupEntry st tok with
      | none =>
        rw [fireEnd_eq_of_lookup_none st tok hl]
        exact h
      | some e =>
        cases he : e.state with
        | inFlight vt =>
          rw [fireEnd_eq_of_inFlight st tok e vt hl he]
          rw [armedAt_lookup_some _ _ _ (lookup_setEntry_self st tok
            (CallbackEntry.mk e.name ArmState.unarmed (some vt)) e hl)]
          rfl
        | unarmed =>
          rw [fireEnd_eq_of_not_inFlight st tok e hl (by simp [he])]
          exact h
        | armed wt vt =>
          rw [fireEnd_eq_of_not_inFlight st tok e hl (by simp [he])]
          exact h
    · cases hl : lookupEntry st tok with
      | some e =>
        rw [armedAt_lookup_some _ _ e (by rw [fireEnd_lookup_other st t tok ht]; exact hl)]
        rw [armedAt_lookup_some st tok e hl] at h
        exact h
      | none =>
        exact armedAt_lookup_none _ _ (by rw [fireEnd_lookup_other st t tok ht]; exact hl)

theorem invokes_false_of_not_armed (st : DispatchState) (ev : Event) (tok : Nat)
    (h : armedAt st tok = false) : invokes st ev tok = false := by
  cases ev with
  | fireBeginEv t now =>
    unfold invokes
    dsimp only
    by_cases ht : t = tok
    · subst ht
      have hsnd : (fireBegin st t now).snd = none := by
        cases hl : lookupEntry st t with
        | none => rw [fireBegin_eq_of_lookup_none st t now hl]
        | some e =>
          have hs : e.state.isArmed = false := by
            rw [armedAt_lookup_some st t e hl] at h
            exact h
          have hs2 : ∀ wt vt, e.state ≠ ArmState.armed wt vt := by
            intro wt vt hx
            rw [hx] at hs
            exact absurd hs (by simp [ArmState.isArmed])
          rw [fireBegin_eq_of_not_armed st t now e hl hs2]
      rw [hsnd]
      simp
    · have ht2 : (t == tok) = false := by simp [ht]
      rw [ht2]
      simp
  | reg name => rfl
  | unreg t => rfl
  | sched t timing now vsyncs => rfl
  | upd t timing now vsyncs => rfl
  | cancelEv t => rfl
  | fireEndEv t => rfl

theorem noInvoke_of_notArmed (st : DispatchState) (evs : List Event) (tok : Nat)
    (h : armedAt st tok = false) (hnr : ∀ ev ∈ evs, rearms ev tok = false) :
    noInvoke st evs tok = true := by
  induction evs generalizing st with
  | nil => rfl
  | cons ev rest ih =>
    unfold noInvoke
    rw [invokes_false_of_not_armed st ev tok h]
    simp only [Bool.not_false, Bool.true_and]
    exact ih (step st ev)
      (notArmed_step st ev tok h (hnr ev (List.mem_cons_self _ _)))
      (fun e he => hnr e (List.mem_cons_of_mem _ he))

theorem armed_until_removed (st : DispatchState) (evs : List Event) (tok : Nat)
    (h : armedAt st tok = true) (h2 : armedAt (run st evs) tok = false) :
    traceRemoves st evs tok = true := by
  induction evs generalizing st with
  | nil =>
    rw [show run st ([] : List Event) = st from rfl, h] at h2
    cases h2
  | cons ev rest ih =>
    by_cases hr : removesArming st ev tok = true
    · unfold traceRemoves
      rw [hr]
      simp
    · have hr2 : removesArming st ev tok = false := by
        cases hx : removesArming st ev tok
        · rfl
        · exact absurd hx hr
      have h3 : armedAt (step st ev) tok = true := armed_step st ev tok h hr2
      have h4 : armedAt (run (step st ev) rest) tok = false := by
        rw [show run (step st ev) rest = run st (ev :: rest) from rfl]
        exact h2
      unfold traceRemoves
      rw [ih (step st ev) h3 h4]
      simp

theorem cancel_cancelled_notArmed (st : DispatchState) (tok : Nat)
    (h : (cancel st tok).snd = CancelResult.Cancelled) :
    armedAt (cancel st tok).fst tok = false := by
  cases hl : lookupEntry st tok with
  | none =>
    rw [cancel_eq_of_lookup_none st tok hl] at h
    simp at h
  | some e =>
    cases he : e.state with
    | armed wt vt =>
      rw [cancel_eq_of_armed st tok e wt vt hl he]
      rw [armedAt_lookup_some _ _ _ (lookup_setEntry_self st tok
        (CallbackEntry.mk e.name ArmState.unarmed e.lastDispatched) e hl)]
      rfl
    | unarmed =>
      rw [cancel_eq_of_not_armed st tok e hl (by simp [he])] at h
      simp at h
    | inFlight vt =>
      rw [cancel_eq_of_not_armed st tok e hl (by simp [he])] at h
      simp at h

/-- The key invariant of the registry: tokens are unique and every issued token is
below the counter. -/
def GoodState (st : DispatchState) : Prop :=
  (TokensOf st).Nodup ∧ ∀ t ∈ TokensOf st, t < st.nextToken

theorem TokensOf_setEntry (st : DispatchState) (tok : Nat) (e : CallbackEntry) :
    TokensOf (setEntry st tok e) = TokensOf st :=
  keys_replace st.entries tok e

theorem good_setEntry (st : DispatchState) (tok : Nat) (e : CallbackEntry)
    (h : GoodState st) : GoodState (setEntry st tok e) := by
  unfold GoodState at h ⊢
  rw [TokensOf_setEntry]
  exact h

theorem TokensOf_register (st : DispatchState) (name : String) :
    TokensOf (registerCallback st name).fst = TokensOf st ++ [st.nextToken] := by
  unfold TokensOf registerCallback
  simp

theorem good_register (st : DispatchState) (name : String) (h : GoodState st) :
    GoodState (registerCallback st name).fst := by
  obtain ⟨hn, hb⟩ := h
  have hnotmem : st.nextToken ∉ TokensOf st := by
    intro hm
    exact absurd (hb _ hm) (lt_irrefl _)
  constructor
  · rw [TokensOf_register]
    rw [List.nodup_append]
    exact ⟨hn, List.nodup_singleton _, by simpa [List.disjoint_singleton] using hnotmem⟩
  · rw [TokensOf_register]
    intro t ht
    rcases List.mem_append.mp ht with hm | hm
    · exact lt_trans (hb t hm) (Nat.lt_succ_self _)
    · rw [List.mem_singleton.mp hm]
      exact Nat.lt_succ_self _

theorem good_unregister (st : DispatchState) (tok : Nat) (h : GoodState st) :
    GoodState (unregisterCallback st tok) := by
  obtain ⟨hn, hb⟩ := h
  have hsub : List.Sublist (TokensOf (unregisterCallback st tok)) (TokensOf st) :=
    List.Sublist.map Prod.fst (List.filter_sublist st.entries)
  exact ⟨hn.sublist hsub, fun t ht => hb t (hsub.subset ht)⟩

theorem good_step (st : DispatchState) (ev : Event) (h : GoodState st) :
    GoodState (step st ev) := by
  cases ev with
  | reg name => exact good_register st name h
  | unreg t => exact good_unregister st t h
  | sched t timing now vsyncs =>
    dsimp only [step]
    cases hl : lookupEntry st t with
    | none =>
      rw [schedule_eq_of_lookup_none st t timing now vsyncs hl]
      exact h
    | some e =>
      rw [schedule_eq_of_lookup_some st t timing now vsyncs e hl]
      cases hr : resolve now timing vsyncs e.lastDispatched with
      | none => exact h
      | some r => exact good_setEntry st t _ h
  | upd t timing now vsyncs =>
    dsimp only [step]
    cases hl : lookupEntry st t with
    | none =>
      rw [update_eq_of_lookup_none st t timing now vsyncs hl]
      exact h
    | some e =>
      cases he : e.state with
      | armed wt vt =>
        rw [update_eq_of_armed st t timing now vsyncs e wt vt hl he]
        cases hr : resolve now timing vsyncs e.lastDispatched with
        | none => exact h
        | some r => exact good_setEntry st t _ h
      | unarmed =>
        rw [update_eq_of_not_armed st t timing now vsyncs e hl (by simp [he])]
        exact h
      | inFlight vt =>
        rw [update_eq_of_not_armed st t timing now vsyncs e hl (by simp [he])]
        exact h
  | cancelEv t =>
    dsimp only [step]
    cases hl : lookupEntry st t with
    | none =>
      rw [cancel_eq_of_lookup_none st t hl]
      exact h
    | some e =>
      cases he : e.state with
      | armed wt vt =>
        rw [cancel_eq_of_armed st t e wt vt hl he]
        exact good_setEntry st t _ h
      | unarmed =>
        rw [cancel_eq_of_not_armed st t e hl (by simp [he])]
        exact h
      | inFlight vt =>
        rw [cancel_eq_of_not_armed st t e hl (by simp [he])]
        exact h
  | fireBeginEv t now =>
    dsimp only [step]
    cases hl : lookupEntry st t with
    | none =>
      rw [fireBegin_eq_of_lookup_none st t now hl]
      exact h
    | some e =>
      cases he : e.state with
      | armed wt vt =>
        rw [fireBegin_eq_of_armed st t now e wt vt hl he]
        by_cases hw : wt ≤ now
        · rw [if_pos hw]
          exact good_setEntry st t _ h
        · rw [if_neg hw]
          exact h
      | unarmed =>
        rw [fireBegin_eq_of_not_armed st t now e hl (by simp [he])]
        exact h
      | inFlight vt =>
        rw [fireBegin_eq_of_not_armed st t now e hl (by simp [he])]
        exact h
  | fireEndEv t =>
    dsimp only [step]
    cases hl : lookupEntry st t with
    | none =>
      rw [fireEnd_eq_of_lookup_none st t hl]
      exact h
    | some e =>
      cases he : e.state with
      | inFlight vt =>
        rw [fireEnd_eq_of_inFlight st t e vt hl he]
        exact good_setEntry st t _ h
      | unarmed =>
        rw [fireEnd_eq_of_not_inFlight st t e hl (by simp [he])]
        exact h
      | armed wt vt =>
        rw [fireEnd_eq_of_not_inFlight st t e hl (by simp [he])]
        exact h

theorem good_run (st : DispatchState) (evs : List Event) (h : GoodState st) :
    GoodState (run st evs) := by
  induction evs generalizing st with
  | nil => exact h
  | cons ev rest ih => exact ih (step st ev) (good_step st ev h)

theorem good_dispatchInit : GoodState dispatchInit :=
  ⟨List.nodup_nil, by simp [TokensOf, dispatchInit]⟩

/-- Modelled from the spec: whether a registry entry is due at the given
time, returning its (token, callbackTime, vsyncTime). -/
def dueOf (now : Int) (p : Nat × CallbackEntry) : Option (Nat × Int × Int) :=
  match p.snd.state with
  | ArmState.armed wt vt => if wt ≤ now then some (p.fst, wt, vt) else none
  | _ => none

/-- Modelled from the spec: the armed entries due at the given time, in
registration order. -/
def dueEntries (st : DispatchState) (now : Int) : List (Nat × Int × Int) :=
  st.entries.filterMap (dueOf now)

/-- Modelled from the spec: dispatch precedence of due entries, ascending
callbackTime with ties broken by token creation order. -/
def dispatchLE (a b : Nat × Int × Int) : Prop :=
  a.snd.fst < b.snd.fst ∨ (a.snd.fst = b.snd.fst ∧ a.fst ≤ b.fst)

instance : DecidableRel dispatchLE := fun a b => by
  unfold dispatchLE
  infer_instance

instance : IsTotal (Nat × Int × Int) dispatchLE := by
  constructor
  intro a b
  rcases a with ⟨ta, ca, va⟩
  rcases b with ⟨tb, cb, vb⟩
  simp only [dispatchLE]
  omega

instance : IsTrans (Nat × Int × Int) dispatchLE := by
  constructor
  intro a b c hab hbc
  rcases a with ⟨ta, ca, va⟩
  rcases b with ⟨tb, cb, vb⟩
  rcases c with ⟨tc, cc, vc⟩
  simp only [dispatchLE] at hab hbc ⊢
  omega

/-- Modelled from the spec: the order in which the dispatch loop invokes the
entries that are simultaneously due. -/
def dispatchOrder (st : DispatchState) (now : Int) : List (Nat × Int × Int) :=
  List.insertionSort dispatchLE (dueEntries st now)

theorem dueOf_fst (now : Int) (p : Nat × CallbackEntry) (q : Nat × Int × Int)
    (hd : dueOf now p = some q) : q.fst = p.fst := by
  unfold dueOf at hd
  cases hs : p.snd.state with
  | armed wt vt =>
    rw [hs] at hd
    dsimp only at hd
    by_cases hw : wt ≤ now
    · rw [if_pos hw] at hd
      rw [← Option.some_inj.mp hd]
    · rw [if_neg hw] at hd
      cases hd
  | unarmed =>
    rw [hs] at hd
    cases hd
  | inFlight vt =>
    rw [hs] at hd
    cases hd

theorem dueTokens_sublist (l : List (Nat × CallbackEntry)) (now : Int) :
    List.Sublist ((l.filterMap (dueOf now)).map Prod.fst) (l.map Prod.fst) := by
  induction l with
  | nil => simp
  | cons a l ih =>
    rw [List.filterMap_cons]
    cases hd : dueOf now a with
    | none =>
      rw [List.map_cons]
      exact ih.cons _
    | some q =>
      rw [List.map_cons, List.map_cons, dueOf_fst now a q hd]
      exact ih.cons₂ _

theorem dispatchOrder_nodup_fst (st : DispatchState) (now : Int)
    (h : (TokensOf st).Nodup) : ((dispatchOrder st now).map Prod.fst).Nodup := by
  have h1 : ((dueEntries st now).map Prod.fst).Nodup :=
    h.sublist (dueTokens_sublist st.entries now)
  have h2 : ((dispatchOrder st now).map Prod.fst).Perm ((dueEntries st now).map Prod.fst) :=
    (List.perm_insertionSort dispatchLE (dueEntries st now)).map Prod.fst
  exact h2.nodup_iff.mpr h1

theorem dispatchOrder_strict (st : DispatchState) (now : Int)
    (h : (TokensOf st).Nodup) :
    List.Pairwise
      (fun a b : Nat × Int × Int =>
        a.snd.fst < b.snd.fst ∨ (a.snd.fst = b.snd.fst ∧ a.fst < b.fst))
      (dispatchOrder st now) := by
  have h1 : List.Pairwise dispatchLE (dispatchOrder st now) :=
    List.sorted_insertionSort dispatchLE (dueEntries st now)
  have h2 : List.Pairwise (fun a b : Nat × Int × Int => a.fst ≠ b.fst)
      (dispatchOrder st now) :=
    List.pairwise_map.mp (dispatchOrder_nodup_fst st now h)
  refine (h1.and h2).imp ?_
  rintro a b ⟨hle, hne⟩
  rcases hle with hlt | ⟨heq, hle2⟩
  · exact Or.inl hlt
  · exact Or.inr ⟨heq, lt_of_le_of_ne hle2 hne⟩

/-- Modelled from the spec: the scoped registration handle
`VSyncCallbackRegistration`, holding the optional token of the registration
it owns (the constructor, move operations and destructor bodies are not in
the sources). -/
structure VSyncCallbackRegistration where
  mToken : Option Nat
deriving DecidableEq, Repr

/-- Modelled from the spec: move construction or assignment transfers the
token and leaves the source holding no token; the result is (destination,
source after the move). -/
def VSyncCallbackRegistration.moveFrom (r : VSyncCallbackRegistration) :
    VSyncCallbackRegistration × VSyncCallbackRegistration :=
  (VSyncCallbackRegistration.mk r.mToken, VSyncCallbackRegistration.mk none)

/-- Modelled from the spec: destruction or explicit release of the handle.
When a token is held, the callback is cancelled (the cancel outcome,
including TooLate, is ignored) and then unregistered; when no token is held,
nothing happens. -/
def VSyncCallbackRegistration.destroy (r : VSyncCallbackRegistration)
    (st : DispatchState) : DispatchState :=
  match r.mToken with
  | none => st
  | some tok => unregisterCallback (cancel st tok).fst tok

theorem schedule_snd_some (st : DispatchState) (tok : Nat) (timing : ScheduleTiming)
    (now : Int) (vsyncs : List Int) (r : ScheduleResult)
    (h : (schedule st tok timing now vsyncs).snd = some r) :
    ∃ e, lookupEntry st tok = some e ∧ resolve now timing vsyncs e.lastDispatched = some r := by
  cases hl : lookupEntry st tok with
  | none =>
    rw [schedule_eq_of_lookup_none st tok timing now vsyncs hl] at h
    cases h
  | some e =>
    rw [schedule_eq_of_lookup_some st tok timing now vsyncs e hl] at h
    cases hr : resolve now timing vsyncs e.lastDispatched with
    | none =>
      rw [hr] at h
      cases h
    | some r2 =>
      rw [hr] at h
      dsimp only at h
      rw [Option.some_inj.mp h] at hr
      exact ⟨e, rfl, hr⟩

theorem schedule_tokens (st : DispatchState) (tok : Nat) (timing : ScheduleTiming)
    (now : Int) (vsyncs : List Int) :
    TokensOf (schedule st tok timing now vsyncs).fst = TokensOf st := by
  cases hl : lookupEntry st tok with
  | none => rw [schedule_eq_of_lookup_none st tok timing now vsyncs hl]
  | some e =>
    rw [schedule_eq_of_lookup_some st tok timing now vsyncs e hl]
    cases hr : resolve now timing vsyncs e.lastDispatched with
    | none => rfl
    | some r =>
      dsimp only
      exact TokensOf_setEntry st tok _

/-- A dispatcher with exactly one registered callback, holding token 0;
used as a concrete state in the witnesses below. -/
def stW : DispatchState := (registerCallback dispatchInit "cb").fst

/-- The timing request of the concrete scenario of the specification:
workDuration 100, readyDuration 50, lastVsync 900, no committed vsync. -/
def timingW : ScheduleTiming := ScheduleTiming.mk 100 50 900 none

/-- `stW` after arming token 0 at time 500 against predicted vsyncs
1000, 2000, 3000: armed with callbackTime 850, vsyncTime 1000. -/
def stA : DispatchState := (schedule stW 0 timingW 500 [1000, 2000, 3000]).fst

/-- Claim C1: for every successful `schedule(token, timing)` call in which
`timing.committedVsyncOpt` is absent, the returned vsyncTime is the smallest
predictor-reported vsync time at or after `timing.lastVsync` (the predictor
report being sorted), and the returned callbackTime equals
vsyncTime - workDuration - readyDuration. -/
theorem C1_schedule_uncommitted (st : DispatchState) (tok : Nat)
    (timing : ScheduleTiming) (now : Int) (vsyncs : List Int) (r : ScheduleResult)
    (hsorted : List.Pairwise (fun a b : Int => a ≤ b) vsyncs)
    (hnone : timing.committedVsyncOpt = none)
    (hs : (schedule st tok timing now vsyncs).snd = some r) :
    r.vsyncTime ∈ vsyncs ∧ timing.lastVsync ≤ r.vsyncTime ∧
      (∀ v ∈ vsyncs, timing.lastVsync ≤ v → r.vsyncTime ≤ v) ∧
      r.callbackTime = r.vsyncTime - timing.workDuration - timing.readyDuration := by
  obtain ⟨e, hl, hr⟩ := schedule_snd_some st tok timing now vsyncs r hs
  obtain ⟨hrt, hcb, hnow, hld⟩ := resolve_some_val now timing vsyncs e.lastDispatched r hr
  rw [resolveTarget_uncommitted timing vsyncs hnone] at hrt
  obtain ⟨hmem, hlb, hmin⟩ :=
    nextVsyncAfter_spec vsyncs timing.lastVsync r.vsyncTime hsorted hrt
  exact ⟨hmem, hlb, hmin, by omega⟩

/-- Witness for C1: the concrete scenario of the specification (predictor 1000,
2000, 3000; schedule at time 500 with workDuration 100, readyDuration 50,
lastVsync 900) resolves to callbackTime 850 targeting vsync 1000. -/
theorem C1_witness :
    List.Pairwise (fun a b : Int => a ≤ b) [1000, 2000, 3000] ∧
    timingW.committedVsyncOpt = none ∧
    (schedule stW 0 timingW 500 [1000, 2000, 3000]).snd =
      some (ScheduleResult.mk 850 1000) ∧
    (ScheduleResult.mk 850 1000).vsyncTime ∈ ([1000, 2000, 3000] : List Int) ∧
    timingW.lastVsync ≤ (ScheduleResult.mk 850 1000).vsyncTime ∧
    (ScheduleResult.mk 850 1000).callbackTime =
      (ScheduleResult.mk 850 1000).vsyncTime - timingW.workDuration -
        timingW.readyDuration := by
  have h1 : List.Pairwise (fun a b : Int => a ≤ b) [1000, 2000, 3000] := by decide
  have h3 : (schedule stW 0 timingW 500 [1000, 2000, 3000]).snd =
      some (ScheduleResult.mk 850 1000) := by decide
  have hres := C1_schedule_uncommitted stW 0 timingW 500 [1000, 2000, 3000]
    (ScheduleResult.mk 850 1000) h1 rfl h3
  exact ⟨h1, rfl, h3, hres.1, hres.2.1, hres.2.2.2⟩

/-- Claim C5: pinning is idempotent — two schedule calls whose timings carry
the same present committedVsyncOpt return the same vsyncTime (the pinned
value), regardless of any change in predictor state, call time, token or
dispatcher state between the two calls. -/
theorem C5_pinned_idempotent (st1 st2 : DispatchState) (tok1 tok2 : Nat)
    (t1 t2 : ScheduleTiming) (now1 now2 : Int) (vs1 vs2 : List Int)
    (v : Int) (r1 r2 : ScheduleResult)
    (h1 : t1.committedVsyncOpt = some v) (h2 : t2.committedVsyncOpt = some v)
    (hs1 : (schedule st1 tok1 t1 now1 vs1).snd = some r1)
    (hs2 : (schedule st2 tok2 t2 now2 vs2).snd = some r2) :
    r1.vsyncTime = v ∧ r2.vsyncTime = v ∧ r1.vsyncTime = r2.vsyncTime := by
  obtain ⟨e1, hl1, hr1⟩ := schedule_snd_some st1 tok1 t1 now1 vs1 r1 hs1
  obtain ⟨e2, hl2, hr2⟩ := schedule_snd_some st2 tok2 t2 now2 vs2 r2 hs2
  have ha := (resolve_some_val now1 t1 vs1 e1.lastDispatched r1 hr1).1
  have hb := (resolve_some_val now2 t2 vs2 e2.lastDispatched r2 hr2).1
  rw [resolveTarget_committed t1 vs1 v h1] at ha
  rw [resolveTarget_committed t2 vs2 v h2] at hb
  have ha2 := Option.some_inj.mp ha
  have hb2 := Option.some_inj.mp hb
  refine ⟨ha2.symm, hb2.symm, ?_⟩
  rw [← ha2, ← hb2]

/-- Witness for C5: pinning vsync 1000 gives vsyncTime 1000 from two calls
made against entirely different predictor states. -/
theorem C5_witness :
    (ScheduleTiming.mk 100 50 900 (some 1000)).committedVsyncOpt = some 1000 ∧
    (schedule stW 0 (ScheduleTiming.mk 100 50 900 (some 1000)) 500
      [1000, 2000, 3000]).snd = some (ScheduleResult.mk 850 1000) ∧
    (schedule stA 0 (ScheduleTiming.mk 100 50 900 (some 1000)) 600 [333]).snd =
      some (ScheduleResult.mk 850 1000) ∧
    (ScheduleResult.mk 850 1000).vsyncTime = 1000 ∧
    (ScheduleResult.mk 850 1000).vsyncTime = (ScheduleResult.mk 850 1000).vsyncTime := by
  have hs1 : (schedule stW 0 (ScheduleTiming.mk 100 50 900 (some 1000)) 500
      [1000, 2000, 3000]).snd = some (ScheduleResult.mk 850 1000) := by decide
  have hs2 : (schedule stA 0 (ScheduleTiming.mk 100 50 900 (some 1000)) 600 [333]).snd =
      some (ScheduleResult.mk 850 1000) := by decide
  have hres := C5_pinned_idempotent stW stA 0 0 (ScheduleTiming.mk 100 50 900 (some 1000))
    (ScheduleTiming.mk 100 50 900 (some 1000)) 500 600 [1000, 2000, 3000] [333]
    1000 (ScheduleResult.mk 850 1000) (ScheduleResult.mk 850 1000) rfl rfl hs1 hs2
  exact ⟨rfl, hs1, hs2, hres.1, hres.2.2⟩

/-- Claim C6: for a token that has no registered entry (never issued by
registerCallback, or already unregistered), schedule and update return the
empty result with no state change, and cancel returns Error. -/
theorem C6_unknown_token (st : DispatchState) (tok : Nat) (timing : ScheduleTiming)
    (now : Int) (vsyncs : List Int) (h : lookupEntry st tok = none) :
    schedule st tok timing now vsyncs = (st, none) ∧
    update st tok timing now vsyncs = (st, none) ∧
    cancel st tok = (st, CancelResult.Error) :=
  ⟨schedule_eq_of_lookup_none st tok timing now vsyncs h,
    update_eq_of_lookup_none st tok timing now vsyncs h,
    cancel_eq_of_lookup_none st tok h⟩

/-- Witness for C6: token 5 was never issued in `stW`. -/
theorem C6_witness :
    lookupEntry stW 5 = none ∧
    schedule stW 5 timingW 500 [1000, 2000, 3000] = (stW, none) ∧
    update stW 5 timingW 500 [1000, 2000, 3000] = (stW, none) ∧
    cancel stW 5 = (stW, CancelResult.Error) := by
  have h : lookupEntry stW 5 = none := by decide
  have hres := C6_unknown_token stW 5 timingW 500 [1000, 2000, 3000] h
  exact ⟨h, hres.1, hres.2.1, hres.2.2⟩

/-- Claim C8: a moved-from registration holds no token, so destroying it
performs no cancel or unregister (the dispatcher state is untouched);
destroying (or releasing) a registration that still holds a token cancels
the callback — ignoring the cancel outcome, in particular TooLate — and then
unregisters it, removing the entry of the token and leaving every other entry
unchanged. -/
theorem C8_registration_handle (r : VSyncCallbackRegistration) (st : DispatchState)
    (tok : Nat) :
    r.moveFrom.snd.mToken = none ∧
    r.moveFrom.snd.destroy st = st ∧
    (r.mToken = some tok →
      r.destroy st = unregisterCallback (cancel st tok).fst tok ∧
      lookupEntry (r.destroy st) tok = none ∧
      ∀ t2, t2 ≠ tok → lookupEntry (r.destroy st) t2 = lookupEntry st t2) := by
  refine ⟨rfl, rfl, ?_⟩
  intro h
  have hd : r.destroy st = unregisterCallback (cancel st tok).fst tok := by
    unfold VSyncCallbackRegistration.destroy
    rw [h]
  refine ⟨hd, ?_, ?_⟩
  · rw [hd]
    exact lookup_unregister_self _ tok
  · intro t2 hne
    rw [hd, lookup_unregister_other _ tok t2 hne, cancel_lookup_other st tok t2 hne]

/-- Witness for C8: a registration holding token 0 over the armed state
`stA`, and its moved-from counterpart. -/
theorem C8_witness :
    (VSyncCallbackRegistration.mk (some 0)).mToken = some 0 ∧
    (VSyncCallbackRegistration.mk (some 0)).moveFrom.snd.mToken = none ∧
    (VSyncCallbackRegistration.mk (some 0)).moveFrom.snd.destroy stA = stA ∧
    (VSyncCallbackRegistration.mk (some 0)).destroy stA =
      unregisterCallback (cancel stA 0).fst 0 ∧
    lookupEntry ((VSyncCallbackRegistration.mk (some 0)).destroy stA) 0 = none := by
  have hres := C8_registration_handle (VSyncCallbackRegistration.mk (some 0)) stA 0
  have hres2 := hres.2.2 rfl
  exact ⟨rfl, hres.1, hres.2.1, hres2.1, hres2.2.1⟩

/-- Claim C10: `ScheduleTiming::operator==` holds exactly when the four
fields are pairwise equal (equivalently, exactly when the two values are
equal), `operator!=` is its exact negation, and the equality is reflexive,
symmetric and transitive — an equivalence relation. -/
theorem C10_eqOp_spec (a b c : ScheduleTiming) :
    (ScheduleTiming.eqOp a b = true ↔
      (a.workDuration = b.workDuration ∧ a.readyDuration = b.readyDuration ∧
        a.lastVsync = b.lastVsync ∧ a.committedVsyncOpt = b.committedVsyncOpt)) ∧
    ScheduleTiming.neOp a b = !(ScheduleTiming.eqOp a b) ∧
    ScheduleTiming.eqOp a a = true ∧
    ScheduleTiming.eqOp a b = ScheduleTiming.eqOp b a ∧
    (ScheduleTiming.eqOp a b = true → ScheduleTiming.eqOp b c = true →
      ScheduleTiming.eqOp a c = true) ∧
    (ScheduleTiming.eqOp a b = true ↔ a = b) := by
  have key : ∀ x y : ScheduleTiming, ScheduleTiming.eqOp x y = true ↔
      (x.workDuration = y.workDuration ∧ x.readyDuration = y.readyDuration ∧
        x.lastVsync = y.lastVsync ∧ x.committedVsyncOpt = y.committedVsyncOpt) := by
    intro x y
    unfold ScheduleTiming.eqOp
    simp [Bool.and_eq_true, and_assoc]
  have hsymm : (ScheduleTiming.eqOp a b = true) ↔ (ScheduleTiming.eqOp b a = true) := by
    rw [key a b, key b a]
    constructor <;> rintro ⟨h1, h2, h3, h4⟩ <;> exact ⟨h1.symm, h2.symm, h3.symm, h4.symm⟩
  refine ⟨key a b, rfl, ?_, ?_, ?_, ?_⟩
  · exact (key a a).mpr ⟨rfl, rfl, rfl, rfl⟩
  · cases hab : ScheduleTiming.eqOp a b with
    | true =>
      have := hsymm.mp hab
      rw [this]
    | false =>
      cases hba : ScheduleTiming.eqOp b a with
      | true =>
        have := hsymm.mpr hba
        rw [hab] at this
        cases this
      | false => rfl
  · intro h1 h2
    obtain ⟨a1, a2, a3, a4⟩ := (key a b).mp h1
    obtain ⟨b1, b2, b3, b4⟩ := (key b c).mp h2
    exact (key a c).mpr ⟨a1.trans b1, a2.trans b2, a3.trans b3, a4.trans b4⟩
  · rw [key a b]
    constructor
    · rintro ⟨h1, h2, h3, h4⟩
      cases a
      cases b
      dsimp only at h1 h2 h3 h4
      subst h1
      subst h2
      subst h3
      subst h4
      rfl
    · intro h
      subst h
      exact ⟨rfl, rfl, rfl, rfl⟩

/-- Witness for C10: the operator evaluated on the concrete timings of the
scenario. -/
theorem C10_witness :
    ScheduleTiming.eqOp timingW timingW = true ∧
    ScheduleTiming.neOp timingW (ScheduleTiming.mk 100 50 900 (some 1000)) =
      !(ScheduleTiming.eqOp timingW (ScheduleTiming.mk 100 50 900 (some 1000))) ∧
    (ScheduleTiming.eqOp timingW (ScheduleTiming.mk 100 50 900 (some 1000)) = true ↔
      timingW = ScheduleTiming.mk 100 50 900 (some 1000)) := by
  have hres := C10_eqOp_spec timingW (ScheduleTiming.mk 100 50 900 (some 1000)) timingW
  have hrefl := C10_eqOp_spec timingW timingW timingW
  exact ⟨hrefl.2.2.1, hres.2.1, hres.2.2.2.2.2⟩

/-- Claim C2: for a registered token whose request resolves to a target
vsync, schedule returns the empty result — with no state change — exactly
when the computed callbackTime is not strictly after the time of the call or
a callback was already dispatched for the targeted vsync; consequently every
successful schedule returns a callbackTime strictly greater than the call
time.  The same holds for update on an armed entry. -/
theorem C2_infeasible_iff (st : DispatchState) (tok : Nat) (timing : ScheduleTiming)
    (now : Int) (vsyncs : List Int) (e : CallbackEntry) (target : Int)
    (hl : lookupEntry st tok = some e)
    (ht : resolveTarget timing vsyncs = some target) :
    ((schedule st tok timing now vsyncs).snd = none ↔
      (target - (timing.workDuration + timing.readyDuration) ≤ now ∨
        e.lastDispatched = some target)) ∧
    ((schedule st tok timing now vsyncs).snd = none →
      (schedule st tok timing now vsyncs).fst = st) ∧
    (∀ r, (schedule st tok timing now vsyncs).snd = some r → now < r.callbackTime) ∧
    ∀ wt vt, e.state = ArmState.armed wt vt →
      (((update st tok timing now vsyncs).snd = none ↔
        (target - (timing.workDuration + timing.readyDuration) ≤ now ∨
          e.lastDispatched = some target)) ∧
      ((update st tok timing now vsyncs).snd = none →
        (update st tok timing now vsyncs).fst = st) ∧
      ∀ r, (update st tok timing now vsyncs).snd = some r → now < r.callbackTime) := by
  have hiff := resolve_none_iff now timing vsyncs e.lastDispatched target ht
  have main : ∀ pr : DispatchState × Option ScheduleResult,
      pr = (match resolve now timing vsyncs e.lastDispatched with
        | none => (st, none)
        | some r =>
          (setEntry st tok
              (CallbackEntry.mk e.name (ArmState.armed r.callbackTime r.vsyncTime)
                e.lastDispatched),
            some r)) →
      ((pr.snd = none ↔
        (target - (timing.workDuration + timing.readyDuration) ≤ now ∨
          e.lastDispatched = some target)) ∧
      (pr.snd = none → pr.fst = st) ∧
      ∀ r, pr.snd = some r → now < r.callbackTime) := by
    intro pr hpr
    cases hr : resolve now timing vsyncs e.lastDispatched with
    | none =>
      rw [hr] at hpr hiff
      dsimp only at hpr
      subst hpr
      refine ⟨?_, fun _ => rfl, ?_⟩
      · exact hiff
      · intro r hx
        simp at hx
    | some r2 =>
      rw [hr] at hpr hiff
      dsimp only at hpr
      subst hpr
      refine ⟨?_, ?_, ?_⟩
      · constructor
        · intro hx
          simp at hx
        · intro hcond
          cases hiff.mpr hcond
      · intro hx
        simp at hx
      · intro r hx
        dsimp only at hx
        rw [← Option.some_inj.mp hx]
        exact (resolve_some_val now timing vsyncs e.lastDispatched r2 hr).2.2.1
  have heq := schedule_eq_of_lookup_some st tok timing now vsyncs e hl
  refine ⟨(main _ heq).1, (main _ heq).2.1, (main _ heq).2.2, ?_⟩
  intro wt vt he
  exact main _ (update_eq_of_armed st tok timing now vsyncs e wt vt hl he)

/-- Witness for C2: the infeasible scenario of the specification — the same
request as C1 but issued at time 900, when the computed callbackTime 850 is
already in the past, so schedule returns the empty result. -/
theorem C2_witness :
    lookupEntry stW 0 = some (CallbackEntry.mk "cb" ArmState.unarmed none) ∧
    resolveTarget timingW [1000, 2000, 3000] = some 1000 ∧
    ((schedule stW 0 timingW 900 [1000, 2000, 3000]).snd = none ↔
      (1000 - (timingW.workDuration + timingW.readyDuration) ≤ 900 ∨
        (CallbackEntry.mk "cb" ArmState.unarmed none).lastDispatched = some 1000)) ∧
    (schedule stW 0 timingW 900 [1000, 2000, 3000]).snd = none ∧
    (schedule stW 0 timingW 900 [1000, 2000, 3000]).fst = stW := by
  have hres := C2_infeasible_iff stW 0 timingW 900 [1000, 2000, 3000]
    (CallbackEntry.mk "cb" ArmState.unarmed none) 1000 rfl rfl
  have hnone : (schedule stW 0 timingW 900 [1000, 2000, 3000]).snd = none :=
    hres.1.mpr (Or.inl (by decide))
  exact ⟨rfl, rfl, hres.1, hnone, hres.2.1 hnone⟩

/-- Claim C3: cancel returns Cancelled and disarms the entry when it is
Armed; returns TooLate when the entry is InFlight or is no longer armed
(in particular when it was already removed because it fired); returns Error
when the token is unknown; and after a Cancelled result the callback is
never invoked for that arming — no event of any subsequent trace free of
schedule and update calls for the token invokes it. -/
theorem C3_cancel_semantics (st : DispatchState) (tok : Nat) :
    (lookupEntry st tok = none → cancel st tok = (st, CancelResult.Error)) ∧
    (∀ e wt vt, lookupEntry st tok = some e → e.state = ArmState.armed wt vt →
      (cancel st tok).snd = CancelResult.Cancelled ∧
      lookupEntry (cancel st tok).fst tok =
        some (CallbackEntry.mk e.name ArmState.unarmed e.lastDispatched)) ∧
    (∀ e vt, lookupEntry st tok = some e → e.state = ArmState.inFlight vt →
      (cancel st tok).snd = CancelResult.TooLate) ∧
    (∀ e, lookupEntry st tok = some e → e.state = ArmState.unarmed →
      (cancel st tok).snd = CancelResult.TooLate) ∧
    ∀ evs, (cancel st tok).snd = CancelResult.Cancelled →
      (∀ ev ∈ evs, rearms ev tok = false) →
      noInvoke (cancel st tok).fst evs tok = true := by
  refine ⟨?_, ?_, ?_, ?_, ?_⟩
  · exact fun h => cancel_eq_of_lookup_none st tok h
  · intro e wt vt hl he
    rw [cancel_eq_of_armed st tok e wt vt hl he]
    exact ⟨rfl, lookup_setEntry_self st tok _ e hl⟩
  · intro e vt hl he
    rw [cancel_eq_of_not_armed st tok e hl (by simp [he])]
  · intro e hl he
    rw [cancel_eq_of_not_armed st tok e hl (by simp [he])]
  · intro evs hc hnr
    exact noInvoke_of_notArmed _ evs tok (cancel_cancelled_notArmed st tok hc) hnr

/-- Witness for C3: cancelling the armed token 0 of `stA` returns Cancelled,
disarms the entry, and a later dispatch-loop attempt does not invoke the
callback. -/
theorem C3_witness :
    lookupEntry stA 0 = some (CallbackEntry.mk "cb" (ArmState.armed 850 1000) none) ∧
    (CallbackEntry.mk "cb" (ArmState.armed 850 1000) none).state =
      ArmState.armed 850 1000 ∧
    (cancel stA 0).snd = CancelResult.Cancelled ∧
    lookupEntry (cancel stA 0).fst 0 =
      some (CallbackEntry.mk "cb" ArmState.unarmed none) ∧
    noInvoke (cancel stA 0).fst [Event.fireBeginEv 0 2000] 0 = true := by
  have hres := (C3_cancel_semantics stA 0).2.1
    (CallbackEntry.mk "cb" (ArmState.armed 850 1000) none) 850 1000 rfl rfl
  have hni := (C3_cancel_semantics stA 0).2.2.2.2 [Event.fireBeginEv 0 2000]
    hres.1 (by decide)
  exact ⟨rfl, rfl, hres.1, hres.2, hni⟩

/-- Claim C4: in every reachable state each token has at most one entry, and
calling schedule again on an already-registered token never duplicates the
entry — the token multiset is unchanged — while a successful call replaces
the wake time of the pending entry in place with the newly computed one. -/
theorem C4_replace_not_duplicate (evs : List Event) (tok : Nat)
    (timing : ScheduleTiming) (now : Int) (vsyncs : List Int) :
    List.count tok (TokensOf (run dispatchInit evs)) ≤ 1 ∧
    TokensOf (schedule (run dispatchInit evs) tok timing now vsyncs).fst =
      TokensOf (run dispatchInit evs) ∧
    ∀ e r, lookupEntry (run dispatchInit evs) tok = some e →
      (schedule (run dispatchInit evs) tok timing now vsyncs).snd = some r →
      lookupEntry (schedule (run dispatchInit evs) tok timing now vsyncs).fst tok =
        some (CallbackEntry.mk e.name (ArmState.armed r.callbackTime r.vsyncTime)
          e.lastDispatched) := by
  have hgood := good_run dispatchInit evs good_dispatchInit
  refine ⟨List.nodup_iff_count_le_one.mp hgood.1 tok,
    schedule_tokens _ tok timing now vsyncs, ?_⟩
  intro e r hl hs
  rw [schedule_eq_of_lookup_some _ tok timing now vsyncs e hl] at hs ⊢
  cases hr : resolve now timing vsyncs e.lastDispatched with
  | none =>
    rw [hr] at hs
    dsimp only at hs
    cases hs
  | some r2 =>
    rw [hr] at hs
    dsimp only at hs
    rw [← Option.some_inj.mp hs]
    exact lookup_setEntry_self _ tok _ e hl

/-- Witness for C4: rescheduling the armed token 0 to a later target (vsync
2000, wake time 1850) replaces the entry in place. -/
theorem C4_witness :
    List.count 0 (TokensOf (run dispatchInit
      [Event.reg "cb", Event.sched 0 timingW 500 [1000, 2000, 3000]])) ≤ 1 ∧
    TokensOf (schedule (run dispatchInit
        [Event.reg "cb", Event.sched 0 timingW 500 [1000, 2000, 3000]])
        0 (ScheduleTiming.mk 100 50 1500 none) 600 [1000, 2000, 3000]).fst =
      TokensOf (run dispatchInit
        [Event.reg "cb", Event.sched 0 timingW 500 [1000, 2000, 3000]]) ∧
    lookupEntry (run dispatchInit
        [Event.reg "cb", Event.sched 0 timingW 500 [1000, 2000, 3000]]) 0 =
      some (CallbackEntry.mk "cb" (ArmState.armed 850 1000) none) ∧
    (schedule (run dispatchInit
        [Event.reg "cb", Event.sched 0 timingW 500 [1000, 2000, 3000]])
        0 (ScheduleTiming.mk 100 50 1500 none) 600 [1000, 2000, 3000]).snd =
      some (ScheduleResult.mk 1850 2000) ∧
    lookupEntry (schedule (run dispatchInit
        [Event.reg "cb", Event.sched 0 timingW 500 [1000, 2000, 3000]])
        0 (ScheduleTiming.mk 100 50 1500 none) 600 [1000, 2000, 3000]).fst 0 =
      some (CallbackEntry.mk "cb" (ArmState.armed 1850 2000) none) := by
  have hl : lookupEntry (run dispatchInit
      [Event.reg "cb", Event.sched 0 timingW 500 [1000, 2000, 3000]]) 0 =
      some (CallbackEntry.mk "cb" (ArmState.armed 850 1000) none) := by decide
  have hs : (schedule (run dispatchInit
      [Event.reg "cb", Event.sched 0 timingW 500 [1000, 2000, 3000]])
      0 (ScheduleTiming.mk 100 50 1500 none) 600 [1000, 2000, 3000]).snd =
      some (ScheduleResult.mk 1850 2000) := by decide
  have hres := C4_replace_not_duplicate
    [Event.reg "cb", Event.sched 0 timingW 500 [1000, 2000, 3000]]
    0 (ScheduleTiming.mk 100 50 1500 none) 600 [1000, 2000, 3000]
  exact ⟨hres.1, hres.2.1, hl, hs,
    hres.2.2 (CallbackEntry.mk "cb" (ArmState.armed 850 1000) none)
      (ScheduleResult.mk 1850 2000) hl hs⟩

/-- Claim C7: in every reachable state, entries that are due at the same
instant are dispatched in ascending callbackTime order, with equal
callbackTimes broken by token creation order (the earlier-registered,
smaller token first); the dispatch order holds exactly the due entries. -/
theorem C7_dispatch_ordering (evs : List Event) (now : Int) :
    List.Pairwise
      (fun a b : Nat × Int × Int =>
        a.snd.fst < b.snd.fst ∨ (a.snd.fst = b.snd.fst ∧ a.fst < b.fst))
      (dispatchOrder (run dispatchInit evs) now) ∧
    ∀ x, x ∈ dispatchOrder (run dispatchInit evs) now ↔
      x ∈ dueEntries (run dispatchInit evs) now := by
  have hgood := good_run dispatchInit evs good_dispatchInit
  refine ⟨dispatchOrder_strict _ now hgood.1, ?_⟩
  intro x
  exact (List.perm_insertionSort dispatchLE (dueEntries (run dispatchInit evs) now)).mem_iff

/-- Witness for C7: the tie scenario of the specification — tokens 0 and 1 both
armed for callbackTime 850; the dispatch order at time 900 is token 0 first,
token 1 second. -/
theorem C7_witness :
    List.Pairwise
      (fun a b : Nat × Int × Int =>
        a.snd.fst < b.snd.fst ∨ (a.snd.fst = b.snd.fst ∧ a.fst < b.fst))
      (dispatchOrder (run dispatchInit
        [Event.reg "a", Event.reg "b", Event.sched 0 timingW 500 [1000, 2000, 3000],
          Event.sched 1 timingW 500 [1000, 2000, 3000]]) 900) ∧
    dispatchOrder (run dispatchInit
        [Event.reg "a", Event.reg "b", Event.sched 0 timingW 500 [1000, 2000, 3000],
          Event.sched 1 timingW 500 [1000, 2000, 3000]]) 900 =
      [(0, 850, 1000), (1, 850, 1000)] := by
  refine ⟨(C7_dispatch_ordering
    [Event.reg "a", Event.reg "b", Event.sched 0 timingW 500 [1000, 2000, 3000],
      Event.sched 1 timingW 500 [1000, 2000, 3000]] 900).1, ?_⟩
  decide

/-- Claim C9: a successfully armed callback is never silently dropped — if a
token is armed in some state and no longer armed after a trace of events,
then some event of the trace explicitly removed the arming: a cancel of the
token, an unregister of the token, or the dispatch loop claiming the entry
and actually invoking its callback. -/
theorem C9_armed_never_dropped (st : DispatchState) (tok : Nat) (evs : List Event)
    (h : armedAt st tok = true) (h2 : armedAt (run st evs) tok = false) :
    traceRemoves st evs tok = true :=
  armed_until_removed st evs tok h h2

/-- Witness for C9: token 0 is armed in `stA` and unarmed after a cancel
event; the trace indeed contains the removing event. -/
theorem C9_witness :
    armedAt stA 0 = true ∧
    armedAt (run stA [Event.cancelEv 0]) 0 = false ∧
    traceRemoves stA [Event.cancelEv 0] 0 = true := by
  have h : armedAt stA 0 = true := by decide
  have h2 : armedAt (run stA [Event.cancelEv 0]) 0 = false := by decide
  exact ⟨h, h2, C9_armed_never_dropped stA 0 [Event.cancelEv 0] h h2⟩

end Scheduler
